import Mathlib

/-!
Verification of the `price-is-right` MRF (machine-readable file) search
pipeline, shallowly embedded from the Go sources.

Modelling conventions used throughout:
* Go `int64` values (NPIs) are embedded as `Int`.
* Go `float64` values (`provider_group_id` keys, `negotiated_rate` prices)
  are embedded as `Rat`: the code decodes the JSON numeric token with
  `simdjson Iter.Float` / `encoding/json` into a `float64` and compares keys
  by value equality, never truncating; `Rat` models that full-precision
  numeric token (the repository's own tests exercise ids such as
  `42.123456789` vs `42.987654321`, which are distinct in `float64` exactly
  as they are in `Rat`).
* The Go map `map[float64][]ProviderInfo` (`MatchedProviders.ByGroupID`,
  `src/unnamed/part_004`) is embedded as an association list with
  append-at-key update, mirroring
  `matched.ByGroupID[id] = append(matched.ByGroupID[id], info)`.
* `map[int64]struct{}` target-NPI sets are embedded as `List Int` with
  membership lookup.
-/


/-- Embeds `mrf.TIN` (`src/internal/mrf/types.go`). -/
structure TIN where
  tinType : String
  value : String
deriving DecidableEq, Repr

/-- Embeds `mrf.ProviderGroup` (`src/internal/mrf/types.go`). -/
structure ProviderGroup where
  npi : List Int
  tin : TIN
deriving DecidableEq, Repr

/-- Embeds `mrf.ProviderReference` as decoded by the current code
(`extractProviderRef` in `src/unnamed/part_003` reads `provider_group_id`
with `Iter.Float`, i.e. as a full-precision `float64`; the stale
`src/internal/mrf/types.go` snapshot still says `int`, but the float-keyed
index in `src/unnamed/part_004` and the repository's float-id tests fix the
final field type as `float64`). -/
structure ProviderReference where
  provider_group_id : Rat
  provider_groups : List ProviderGroup
deriving DecidableEq, Repr

/-- Embeds `mrf.NegotiatedPrice` (`src/internal/mrf/types.go`). -/
structure NegotiatedPrice where
  negotiated_rate : Rat
  negotiated_type : String
  billing_class : String
  setting : String
  expiration_date : String
  service_code : List String
  billing_code_modifier : List String
deriving DecidableEq, Repr

/-- Embeds `mrf.NegotiatedRate` (`src/internal/mrf/types.go`, with the
`provider_references` ids at the `float64` precision used by the
float-keyed index in `src/unnamed/part_004`). -/
structure NegotiatedRate where
  provider_references : List Rat
  provider_groups : List ProviderGroup
  negotiated_prices : List NegotiatedPrice
deriving DecidableEq, Repr

/-- Embeds `mrf.InNetworkItem` (`src/internal/mrf/types.go`). -/
structure InNetworkItem where
  billing_code_type : String
  billing_code : String
  name : String
  description : String
  negotiation_arrangement : String
  negotiated_rates : List NegotiatedRate
deriving DecidableEq, Repr

/-- Embeds `mrf.ProviderInfo` (`src/internal/mrf/types.go`). -/
structure ProviderInfo where
  npi : Int
  tin : TIN
deriving DecidableEq, Repr

/-- Embeds `mrf.RateResult` (`src/internal/mrf/types.go`). -/
structure RateResult where
  source_file : String
  npi : Int
  tin : TIN
  billing_code_type : String
  billing_code : String
  billing_code_description : String
  negotiation_arrangement : String
  negotiated_rate : Rat
  negotiated_type : String
  billing_class : String
  setting : String
  expiration_date : String
  service_code : List String
  billing_code_modifier : List String
deriving DecidableEq, Repr

/-- Embeds `mrf.MatchedProviders` (`src/unnamed/part_004`):
`ByGroupID map[float64][]ProviderInfo` as an association list. -/
structure MatchedProviders where
  byGroupID : List (Rat × List ProviderInfo)
deriving DecidableEq, Repr

/-- The empty index, `make(map[float64][]ProviderInfo)`. -/
def MatchedProviders.empty : MatchedProviders := ⟨[]⟩

/-- Map lookup `infos, ok := m.ByGroupID[id]`: `some infos` when the key is
present. -/
def MatchedProviders.find (m : MatchedProviders) (id : Rat) : Option (List ProviderInfo) :=
  (m.byGroupID.find? (fun kv => kv.1 = id)).map (·.2)

/-- Emptiness check `len(m.ByGroupID) == 0`. -/
def MatchedProviders.isEmpty (m : MatchedProviders) : Bool :=
  m.byGroupID.isEmpty

/-- Update `m.ByGroupID[id] = append(m.ByGroupID[id], info)` on the
association list (append to the entry when present, else add a new key). -/
def addEntryList : List (Rat × List ProviderInfo) → Rat → ProviderInfo →
    List (Rat × List ProviderInfo)
  | [], id, info => [(id, [info])]
  | (k, infos) :: rest, id, info =>
    if k = id then (k, infos ++ [info]) :: rest
    else (k, infos) :: addEntryList rest id info

/-- Structure-level wrapper for `addEntryList`. -/
def MatchedProviders.addEntry (m : MatchedProviders) (id : Rat) (info : ProviderInfo) :
    MatchedProviders :=
  ⟨addEntryList m.byGroupID id info⟩

/-- Embeds the inner `provider_groups` loop body of `extractProviderRef`
(`src/unnamed/part_003`, lines 76-120): for each NPI of the group that is a
target NPI, append `ProviderInfo{NPI: npi, TIN: tin}` under the element's
`provider_group_id`. (The `hasMatch` quick check in the source only
short-circuits the TIN extraction; it adds the same entries.) -/
def addProviderGroup (targets : List Int) (gid : Rat) (m : MatchedProviders)
    (pg : ProviderGroup) : MatchedProviders :=
  pg.npi.foldl
    (fun acc npi => if npi ∈ targets then acc.addEntry gid ⟨npi, pg.tin⟩ else acc) m

/-- Embeds `extractProviderRef` (`src/unnamed/part_003`, lines 55-121) on a
decoded `ProviderReference`: walk `provider_groups`, appending every
target-matching `{NPI, TIN}` pair under `provider_group_id`. -/
def extractProviderRef (targets : List Int) (m : MatchedProviders)
    (ref : ProviderReference) : MatchedProviders :=
  ref.provider_groups.foldl (fun acc pg => addProviderGroup targets ref.provider_group_id acc pg) m

/-- Builds the provider index from a list of decoded provider_references
elements, as the provider_references pass does. -/
def buildIndex (targets : List Int) (refs : List ProviderReference) : MatchedProviders :=
  refs.foldl (extractProviderRef targets) MatchedProviders.empty

/-- Embeds the candidate-provider collection of `emitInNetworkResults`
(`src/unnamed/part_004`, lines 114-133): all index entries for each
referenced id (Case A), then each inline `{NPI, TIN}` whose NPI is a target
(Case B). `matched = none` embeds a nil `*MatchedProviders`. -/
def candidateProviders (targets : List Int) (matched : Option MatchedProviders)
    (nr : NegotiatedRate) : List ProviderInfo :=
  (match matched with
   | none => []
   | some m => nr.provider_references.flatMap (fun refID => (m.find refID).getD []))
  ++ nr.provider_groups.flatMap
      (fun pg => (pg.npi.filter (fun npi => npi ∈ targets)).map (fun npi => ⟨npi, pg.tin⟩))

/-- The `RateResult` literal built by `emitInNetworkResults`
(`src/unnamed/part_004`, lines 141-156). -/
def mkRateResult (item : InNetworkItem) (descr : String) (sourceFile : String)
    (prov : ProviderInfo) (price : NegotiatedPrice) : RateResult :=
  { source_file := sourceFile
    npi := prov.npi
    tin := prov.tin
    billing_code_type := item.billing_code_type
    billing_code := item.billing_code
    billing_code_description := descr
    negotiation_arrangement := item.negotiation_arrangement
    negotiated_rate := price.negotiated_rate
    negotiated_type := price.negotiated_type
    billing_class := price.billing_class
    setting := price.setting
    expiration_date := price.expiration_date
    service_code := price.service_code
    billing_code_modifier := price.billing_code_modifier }

/-- Embeds the emission loop of `emitInNetworkResults`
(`src/unnamed/part_004`, lines 139-158): one `RateResult` per
(candidate provider × negotiated price) pair. -/
def emitForRate (item : InNetworkItem) (descr : String) (sourceFile : String)
    (providers : List ProviderInfo) (nr : NegotiatedRate) : List RateResult :=
  providers.flatMap (fun prov =>
    nr.negotiated_prices.map (mkRateResult item descr sourceFile prov))

/-- Embeds `emitInNetworkResults` (`src/unnamed/part_004`, lines 102-160):
the description is `item.name` unless empty, else `item.description`; each
`NegotiatedRate` contributes its candidate-provider × price grid (the
`len(providers) == 0 → continue` short-circuit is kept verbatim). -/
def emitInNetworkResults (targets : List Int) (matched : Option MatchedProviders)
    (sourceFile : String) (item : InNetworkItem) : List RateResult :=
  let descr := if item.name = "" then item.description else item.name
  item.negotiated_rates.flatMap (fun nr =>
    let providers := candidateProviders targets matched nr
    if providers = [] then []
    else emitForRate item descr sourceFile providers nr)

/-!
JSON values and the decoding layer.

A decoded JSON tree models one complete JSON value as produced by
`dec.Decode(&raw json.RawMessage)` on a well-formed stream; the `decode*`
functions below embed `encoding/json` unmarshalling of that value into the
`mrf` struct types (missing or `null` fields keep the Go zero value; a
present field of the wrong JSON type makes `json.Unmarshal` report an
error, after which the callers `continue`, so the whole element decode is
`none`).
-/

/-- A complete JSON value. -/
inductive Json where
  | num (q : Rat)
  | str (s : String)
  | boolean (b : Bool)
  | null
  | arr (elems : List Json)
  | obj (fields : List (String × Json))

/-- Field lookup on a JSON object: `none` when the value is not an object
or the key is absent. Duplicate keys resolve to the last occurrence, as
successive `encoding/json` struct-field assignments overwrite. -/
def Json.getField (j : Json) (key : String) : Option Json :=
  match j with
  | Json.obj fields => ((fields.filter (fun kv => kv.1 = key)).getLast?).map (·.2)
  | _ => none

/-- Decode a JSON value into a Go `string` field. -/
def decodeString : Json → Option String
  | Json.str s => some s
  | _ => none

/-- Decode a JSON value into a Go `float64` field. -/
def decodeNumber : Json → Option Rat
  | Json.num q => some q
  | _ => none

/-- Decode a JSON value into a Go `int64` field: a fractional number is an
`UnmarshalTypeError` (and `simdjson Array.AsInteger` likewise fails on it). -/
def decodeInt : Json → Option Int
  | Json.num q => if q.den = 1 then some q.num else none
  | _ => none

/-- Decode an optional field with Go zero-value semantics: absent or `null`
keeps the zero value `dflt`; a present field must decode or the element
errors. -/
def decodeFieldD {α : Type} (j : Json) (key : String) (dec : Json → Option α)
    (dflt : α) : Option α :=
  match j.getField key with
  | none => some dflt
  | some Json.null => some dflt
  | some v => dec v

/-- Decode a JSON array elementwise; `none` when the value is not an array
or any element fails. -/
def decodeArray {α : Type} (dec : Json → Option α) : Json → Option (List α)
  | Json.arr elems => elems.mapM dec
  | _ => none

/-- Decode `mrf.TIN{Type, Value string}`. -/
def decodeTIN (j : Json) : Option TIN :=
  match j with
  | Json.obj _ => do
    let t ← decodeFieldD j "type" decodeString ""
    let v ← decodeFieldD j "value" decodeString ""
    pure ⟨t, v⟩
  | _ => none

/-- Decode `mrf.ProviderGroup{NPI []int64, TIN TIN}`. -/
def decodeProviderGroup (j : Json) : Option ProviderGroup :=
  match j with
  | Json.obj _ => do
    let npis ← decodeFieldD j "npi" (decodeArray decodeInt) []
    let tin ← decodeFieldD j "tin" decodeTIN ⟨"", ""⟩
    pure ⟨npis, tin⟩
  | _ => none

/-- Decode `mrf.ProviderReference{ProviderGroupID float64,
ProviderGroups []ProviderGroup}`. -/
def decodeProviderReference (j : Json) : Option ProviderReference :=
  match j with
  | Json.obj _ => do
    let gid ← decodeFieldD j "provider_group_id" decodeNumber 0
    let pgs ← decodeFieldD j "provider_groups" (decodeArray decodeProviderGroup) []
    pure ⟨gid, pgs⟩
  | _ => none

/-- Decode `mrf.NegotiatedPrice`. -/
def decodeNegotiatedPrice (j : Json) : Option NegotiatedPrice :=
  match j with
  | Json.obj _ => do
    let rate ← decodeFieldD j "negotiated_rate" decodeNumber 0
    let nty ← decodeFieldD j "negotiated_type" decodeString ""
    let bc ← decodeFieldD j "billing_class" decodeString ""
    let st ← decodeFieldD j "setting" decodeString ""
    let ex ← decodeFieldD j "expiration_date" decodeString ""
    let sc ← decodeFieldD j "service_code" (decodeArray decodeString) []
    let bcm ← decodeFieldD j "billing_code_modifier" (decodeArray decodeString) []
    pure ⟨rate, nty, bc, st, ex, sc, bcm⟩
  | _ => none

/-- Decode `mrf.NegotiatedRate{ProviderReferences []float64,
ProviderGroups []ProviderGroup, NegotiatedPrices []NegotiatedPrice}`. -/
def decodeNegotiatedRate (j : Json) : Option NegotiatedRate :=
  match j with
  | Json.obj _ => do
    let refs ← decodeFieldD j "provider_references" (decodeArray decodeNumber) []
    let pgs ← decodeFieldD j "provider_groups" (decodeArray decodeProviderGroup) []
    let prices ← decodeFieldD j "negotiated_prices" (decodeArray decodeNegotiatedPrice) []
    pure ⟨refs, pgs, prices⟩
  | _ => none

/-- Decode `mrf.InNetworkItem`. -/
def decodeInNetworkItem (j : Json) : Option InNetworkItem :=
  match j with
  | Json.obj _ => do
    let bct ← decodeFieldD j "billing_code_type" decodeString ""
    let bcode ← decodeFieldD j "billing_code" decodeString ""
    let nm ← decodeFieldD j "name" decodeString ""
    let descr ← decodeFieldD j "description" decodeString ""
    let na ← decodeFieldD j "negotiation_arrangement" decodeString ""
    let rates ← decodeFieldD j "negotiated_rates" (decodeArray decodeNegotiatedRate) []
    pure ⟨bct, bcode, nm, descr, na, rates⟩
  | _ => none

/-!
Token layer.

`encoding/json.Decoder` is a pull-token reader: `Token()` yields one
delimiter or primitive, `More()` reports whether the enclosing array or
object has further elements (i.e. the next token is not a closing
delimiter). A token stream is a `List JToken`; `skipValue` below embeds
`skipValue` from the streaming parser (`src/README.md`, lines 852-895),
which discards exactly one complete JSON value by depth-balanced token
reads. The fuel argument only bounds recursion depth; theorems supply any
sufficiently large fuel.
-/

/-- One token as returned by `json.Decoder.Token`. -/
inductive JToken where
  | lbrace
  | rbrace
  | lbrack
  | rbrack
  | jstr (s : String)
  | jnum (q : Rat)
  | jbool (b : Bool)
  | jnull
deriving DecidableEq, Repr

mutual

/-- Embeds `skipValue(dec)` (`src/README.md`, lines 852-895): read one
token; on `{` or `[` loop over the members or elements; a closing
delimiter in value position is a decoder error (`none`). Returns the
remaining stream. -/
def skipValue : Nat → List JToken → Option (List JToken)
  | 0, _ => none
  | _ + 1, [] => none
  | fuel + 1, t :: rest =>
    match t with
    | JToken.lbrace => skipMembers fuel rest
    | JToken.lbrack => skipElements fuel rest
    | JToken.rbrace => none
    | JToken.rbrack => none
    | _ => some rest

/-- Embeds the object loop of `skipValue`: while `dec.More()`, read the key
token (the decoder enforces a string key) and skip its value; then read the
closing `}`. -/
def skipMembers : Nat → List JToken → Option (List JToken)
  | 0, _ => none
  | _ + 1, [] => none
  | fuel + 1, t :: rest =>
    match t with
    | JToken.rbrace => some rest
    | JToken.jstr _ => (skipValue fuel rest).bind (skipMembers fuel)
    | _ => none

/-- Embeds the array loop of `skipValue`: while `dec.More()`, skip one
value; then read the closing `]`. -/
def skipElements : Nat → List JToken → Option (List JToken)
  | 0, _ => none
  | _ + 1, [] => none
  | fuel + 1, t :: rest =>
    match t with
    | JToken.rbrack => some rest
    | _ => (skipValue fuel (t :: rest)).bind (skipElements fuel)

end

mutual

/-- Serializes a JSON value to the token stream the decoder would produce
for it. -/
def Json.toTokens : Json → List JToken
  | Json.num q => [JToken.jnum q]
  | Json.str s => [JToken.jstr s]
  | Json.boolean b => [JToken.jbool b]
  | Json.null => [JToken.jnull]
  | Json.arr es => JToken.lbrack :: (tokensOfElems es ++ [JToken.rbrack])
  | Json.obj fs => JToken.lbrace :: (tokensOfFields fs ++ [JToken.rbrace])

/-- Token stream of the elements of an array (without the brackets). -/
def tokensOfElems : List Json → List JToken
  | [] => []
  | e :: es => Json.toTokens e ++ tokensOfElems es

/-- Token stream of the fields of an object (without the braces). -/
def tokensOfFields : List (String × Json) → List JToken
  | [] => []
  | (k, v) :: fs => JToken.jstr k :: (Json.toTokens v ++ tokensOfFields fs)

end

/-!
The streaming parser `StreamParse` (`src/README.md`, lines 552-674).

The top-level JSON object is embedded as its ordered field list
`List (String × Json)`; the decoder's serial key loop walks it in order.
Two modelling notes, both result-neutral:
* The byte prefilter `lineContainsAny` (`src/unnamed/part_004`) rejects
  only elements whose raw bytes contain no target NPI in decimal form;
  such an element decodes to a reference none of whose group NPIs is a
  target, so `extractProviderRef` adds nothing for it. The spec itself
  states the prefilter is a throughput optimization, not a correctness
  gate, so the embedding processes every element.
* The simdjson quick check `checkNPIMatchSimd` (`src/unnamed/part_003`)
  returns `false` only for elements every one of whose decoded rates has
  an empty candidate list, for which `emitInNetworkResults` emits nothing
  (its references decode to floats and its inline NPIs to integers exactly
  when `json.Unmarshal` succeeds), so the embedding decodes and emits
  directly. Worker fan-out interleaving is serialized in element order;
  the claims proved below are insensitive to result order.
-/

/-- One iteration of the element loop of `streamProviderReferences`
(`src/README.md`, lines 676-746): decode the raw element (malformed
elements are skipped) and extract its target-matching providers. -/
def streamProviderRefsStep (targets : List Int) (m : MatchedProviders) (raw : Json) :
    MatchedProviders :=
  match decodeProviderReference raw with
  | none => m
  | some ref => extractProviderRef targets m ref

/-- Embeds `streamProviderReferences`: fold the element loop over the
array. The element count (`onRefScanned` calls) is the array length. -/
def streamProviderReferences (targets : List Int) (m : MatchedProviders)
    (elems : List Json) : MatchedProviders :=
  elems.foldl (streamProviderRefsStep targets) m

/-- Embeds `processInNetworkElement` (`src/README.md`, lines 820-850):
decode the raw element (malformed elements are skipped) and emit its
results against the read-only index. -/
def processInNetworkElement (targets : List Int) (matched : MatchedProviders)
    (sourceFile : String) (raw : Json) : List RateResult :=
  match decodeInNetworkItem raw with
  | none => []
  | some item => emitInNetworkResults targets (some matched) sourceFile item

/-- Parser state carried through the top-level key loop of `StreamParse`,
including the observable callback traces (`refsCount` counts
`onRefScanned` calls, `codesScanned` counts `OnCodeScanned` calls). -/
structure ParseState where
  seenProviderRefs : Bool
  skippedInNetwork : Bool
  refsCount : Nat
  matched : MatchedProviders
  results : List RateResult
  codesScanned : Nat
  warnings : List String
  stages : List String
deriving DecidableEq, Repr

/-- Initial parser state: on the second pass `matched` starts as the
prebuilt index, otherwise empty. -/
def initState (matched : MatchedProviders) : ParseState :=
  ⟨false, false, 0, matched, [], 0, [], []⟩

/-- One iteration of the `for dec.More()` key loop of `StreamParse`
(`src/README.md`, lines 588-659): dispatch on the key, with the
second-pass skip of `provider_references`, the reversed-order skip of
`in_network`, the empty-index skip of `in_network`, and `skipValue` for
all other keys. `none` embeds a parse error (a relevant key whose value
is not an array). -/
def streamParseStep (targets : List Int) (sourceFile : String)
    (prebuilt : Option MatchedProviders) (key : String) (v : Json)
    (st : ParseState) : Option ParseState :=
  if key = "provider_references" then
    match prebuilt with
    | some _ => some st
    | none =>
      match v with
      | Json.arr elems =>
        some { st with
          seenProviderRefs := true
          refsCount := st.refsCount + elems.length
          matched := streamProviderReferences targets st.matched elems
          stages := st.stages ++ ["Streaming: provider_references"] }
      | _ => none
  else if key = "in_network" then
    if prebuilt.isNone && !st.seenProviderRefs then
      some { st with
        skippedInNetwork := true
        warnings := st.warnings ++
          ["in_network appeared before provider_references; will require second pass"] }
    else if prebuilt.isNone && st.seenProviderRefs && decide (0 < st.refsCount) &&
        st.matched.isEmpty then
      some { st with stages := st.stages ++ ["Skipping: in_network (no matching providers)"] }
    else
      match v with
      | Json.arr elems =>
        some { st with
          codesScanned := st.codesScanned + elems.length
          results := st.results ++
            elems.flatMap (processInNetworkElement targets st.matched sourceFile)
          stages := st.stages ++ ["Streaming: in_network"] }
      | _ => none
  else
    some st

/-- The key loop of `StreamParse`: iterate `streamParseStep` over the
top-level fields in order, stopping at the first error. -/
def streamParseLoop (targets : List Int) (sourceFile : String)
    (prebuilt : Option MatchedProviders) :
    List (String × Json) → ParseState → Option ParseState
  | [], st => some st
  | (key, v) :: rest, st =>
    (streamParseStep targets sourceFile prebuilt key v st).bind
      (streamParseLoop targets sourceFile prebuilt rest)

/-- Observable outcome of `StreamParse`: the `StreamResult` plus the
emitted results and callback traces. -/
structure StreamOut where
  needSecondPass : Bool
  matched : MatchedProviders
  results : List RateResult
  refsScanned : Nat
  codesScanned : Nat
  warnings : List String
  stages : List String
deriving DecidableEq, Repr

/-- Embeds `StreamParse` on a top-level object: run the key loop from the
initial state (the prebuilt index on a second pass, a fresh empty index
otherwise) and return `NeedSecondPass = skippedInNetwork ∧
len(matched.ByGroupID) > 0` together with the final index. -/
def streamParse (targets : List Int) (sourceFile : String)
    (prebuilt : Option MatchedProviders) (doc : List (String × Json)) : Option StreamOut :=
  let init := initState (prebuilt.getD MatchedProviders.empty)
  (streamParseLoop targets sourceFile prebuilt doc init).map (fun st =>
    ⟨st.skippedInNetwork && !st.matched.isEmpty, st.matched, st.results,
      st.refsCount, st.codesScanned, st.warnings, st.stages⟩)

/-- The two top-level keys the parser dispatches on; every other key is
skipped with `skipValue`. -/
def relevantKey (k : String) : Bool :=
  k == "provider_references" || k == "in_network"

/-- True when some `in_network` key occurs before any `provider_references`
key: exactly the situation in which the first pass skips `in_network`. -/
def hasEarlyInNetwork : List (String × Json) → Bool
  | [] => false
  | (k, _) :: rest =>
    if k = "provider_references" then false
    else if k = "in_network" then true
    else hasEarlyInNetwork rest

/-- Invariant of the provider index: every stored provider has a target
NPI (the index is only ever fed through the `npi ∈ targets` guard). -/
def IndexOnlyTargets (targets : List Int) (m : MatchedProviders) : Prop :=
  ∀ p ∈ m.byGroupID, ∀ info ∈ p.2, info.npi ∈ targets

/-!
Concrete fixtures, mirroring the repository's own test MRFs
(`src/internal/mrf/stream_test.go`, `src/unnamed/part_007`,
`src/unnamed/part_013`). Used by the witness theorems.
-/

/-- Target set `{1234567890}` used by the repository tests. -/
def exTargets : List Int := [1234567890]

/-- Decoded TIN fixture. -/
def exTIN : TIN := ⟨"ein", "12-3456789"⟩

/-- JSON TIN fixture. -/
def exTINJson : Json := Json.obj [("type", Json.str "ein"), ("value", Json.str "12-3456789")]

/-- JSON provider group with the target NPI. -/
def exPG : Json := Json.obj [("npi", Json.arr [Json.num 1234567890]), ("tin", exTINJson)]

/-- JSON provider_references element with `provider_group_id = 1`. -/
def exRef1 : Json := Json.obj [("provider_group_id", Json.num 1), ("provider_groups", Json.arr [exPG])]

/-- JSON negotiated price (rate 125.50). -/
def exPrice : Json := Json.obj [("negotiated_rate", Json.num (251/2)),
  ("negotiated_type", Json.str "negotiated"), ("billing_class", Json.str "professional"),
  ("setting", Json.str "outpatient"), ("expiration_date", Json.str "2025-12-31")]

/-- JSON negotiated rate linking via `provider_references = [1]`. -/
def exRateRef : Json := Json.obj [("provider_references", Json.arr [Json.num 1]),
  ("negotiated_prices", Json.arr [exPrice])]

/-- JSON in_network element `99213` linked via provider_references. -/
def exItemRef : Json := Json.obj [("billing_code_type", Json.str "CPT"),
  ("billing_code", Json.str "99213"), ("name", Json.str "Office visit"),
  ("negotiation_arrangement", Json.str "ffs"), ("negotiated_rates", Json.arr [exRateRef])]

/-- Reversed-order document: `in_network` before `provider_references`. -/
def exDocRev : List (String × Json) :=
  [("in_network", Json.arr [exItemRef]), ("provider_references", Json.arr [exRef1])]

/-- Normal-order document with one unknown key. -/
def exDocBasic : List (String × Json) :=
  [("reporting_entity_name", Json.str "Test Health Plan"),
   ("provider_references", Json.arr [exRef1]),
   ("in_network", Json.arr [exItemRef])]

/-- Decoded negotiated price fixture. -/
def exPriceD : NegotiatedPrice := ⟨251/2, "negotiated", "professional", "outpatient", "2025-12-31", [], []⟩

/-- Decoded negotiated rate fixture (references id 1). -/
def exRateD : NegotiatedRate := ⟨[1], [], [exPriceD]⟩

/-- Decoded in_network item fixture. -/
def exItemD : InNetworkItem := ⟨"CPT", "99213", "Office visit", "", "ffs", [exRateD]⟩

/-- Provider index fixture with the single key `1`. -/
def exIdx : MatchedProviders := ⟨[(1, [⟨1234567890, exTIN⟩])]⟩

/-- First-pass output on the reversed document. -/
def exOutRev : StreamOut :=
  ⟨true, exIdx, [], 1, 0,
    ["in_network appeared before provider_references; will require second pass"],
    ["Streaming: provider_references"]⟩

/-- The single RateResult emitted for `exDocBasic`. -/
def exResult0 : RateResult :=
  ⟨"t", 1234567890, exTIN, "CPT", "99213", "Office visit", "ffs", 251/2,
    "negotiated", "professional", "outpatient", "2025-12-31", [], []⟩

/-- Full-pass output on the basic document. -/
def exOutBasic : StreamOut :=
  ⟨false, exIdx, [exResult0], 1, 1, [],
    ["Streaming: provider_references", "Streaming: in_network"]⟩

/-- The target-matching `{NPI, TIN}` pairs contributed by one
provider_references element, in extraction order. -/
def refMatchedProviders (targets : List Int) (ref : ProviderReference) : List ProviderInfo :=
  ref.provider_groups.flatMap
    (fun pg => (pg.npi.filter (fun npi => npi ∈ targets)).map
      (fun npi => ⟨npi, pg.tin⟩))

/-- Fractional group id `42.123456789` (exactly, as a reduced fraction)
from the repository's float-id tests. -/
def qF1 : Rat := ⟨42123456789, 1000000000, by decide, by decide⟩

/-- Fractional group id `42.987654321`. -/
def qF2 : Rat := ⟨42987654321, 1000000000, by decide, by decide⟩

/-- Decoded provider_references element with id `42.123456789` and the
target NPI. -/
def exRefF1D : ProviderReference := ⟨qF1, [⟨[1234567890], exTIN⟩]⟩

/-- Decoded provider_references element with id `42.987654321` and a
non-target NPI. -/
def exRefF2D : ProviderReference := ⟨qF2, [⟨[9876543210], ⟨"ein", "98-7654321"⟩⟩]⟩

/-- The two fractional-id references. -/
def exRefsF : List ProviderReference := [exRefF1D, exRefF2D]

/-- Decoded in_network item referencing only `42.123456789`. -/
def exItemF1D : InNetworkItem := ⟨"CPT", "99213", "Code A", "", "ffs", [⟨[qF1], [], [exPriceD]⟩]⟩

/-- The single result emitted for `exItemF1D` against the fractional-id
index. -/
def exResultF : RateResult :=
  ⟨"t", 1234567890, exTIN, "CPT", "99213", "Code A", "ffs", 251/2,
    "negotiated", "professional", "outpatient", "2025-12-31", [], []⟩

/-- Second price fixture (rate 200). -/
def exPriceD2 : NegotiatedPrice := ⟨200, "negotiated", "professional", "outpatient", "2025-12-31", [], []⟩

/-- Two-target set for the K×M witness. -/
def exTargets2 : List Int := [1234567890, 9876543210]

/-- Inline rate with two matching providers and two prices. -/
def exRateKM : NegotiatedRate := ⟨[], [⟨[1234567890, 9876543210], exTIN⟩], [exPriceD, exPriceD2]⟩

/-- Item carrying the single two-by-two rate. -/
def exItemKM : InNetworkItem := ⟨"CPT", "99215", "X", "", "ffs", [exRateKM]⟩

/-- Non-matching provider_references element (NPI 9999999999). -/
def exRefB : Json := Json.obj [("provider_group_id", Json.num 2),
  ("provider_groups", Json.arr [Json.obj [("npi", Json.arr [Json.num 9999999999]),
    ("tin", Json.obj [("type", Json.str "ein"), ("value", Json.str "99-9999999")])]])]

/-- Document whose provider_references yield no matches. -/
def exDocNoMatch : List (String × Json) :=
  [("provider_references", Json.arr [exRefB]), ("in_network", Json.arr [exItemRef])]

/-- Output on `exDocNoMatch`: in_network skipped. -/
def exOutNoMatch : StreamOut :=
  ⟨false, ⟨[]⟩, [], 1, 0, [],
    ["Streaming: provider_references", "Skipping: in_network (no matching providers)"]⟩

/-- Inline-linkage rate fixture (JSON). -/
def exRateInline : Json := Json.obj [("provider_groups", Json.arr [exPG]),
  ("negotiated_prices", Json.arr [exPrice])]

/-- Inline-linkage in_network element `36415` (JSON). -/
def exItemInline : Json := Json.obj [("billing_code_type", Json.str "CPT"),
  ("billing_code", Json.str "36415"), ("name", Json.str "Venipuncture"),
  ("negotiation_arrangement", Json.str "ffs"),
  ("negotiated_rates", Json.arr [exRateInline])]

/-- Document with an empty provider_references array and an inline-linked
element. -/
def exDocInline : List (String × Json) :=
  [("provider_references", Json.arr []), ("in_network", Json.arr [exItemInline])]

/-- The result emitted for the inline element. -/
def exResultInline : RateResult :=
  ⟨"t", 1234567890, exTIN, "CPT", "36415", "Venipuncture", "ffs", 251/2,
    "negotiated", "professional", "outpatient", "2025-12-31", [], []⟩

/-- Output on `exDocInline`. -/
def exOutInline : StreamOut :=
  ⟨false, ⟨[]⟩, [exResultInline], 0, 1, [],
    ["Streaming: provider_references", "Streaming: in_network"]⟩

/-- Unknown-value fixture: an object holding an array, a primitive and a
boolean. -/
def exMetaJson : Json :=
  Json.obj [("a", Json.arr [Json.num 1, Json.null]), ("b", Json.boolean true)]

/-- Document with unknown keys of all kinds around the relevant keys. -/
def exDocExtra : List (String × Json) :=
  [("version", Json.str "1.0"),
   ("provider_references", Json.arr [exRef1]),
   ("meta", exMetaJson),
   ("in_network", Json.arr [exItemRef]),
   ("trailing", Json.num 7)]

/-- One HTTP attempt outcome as seen by `DownloadHTTP`
(`src/internal/worker/download.go`, lines 175-209): a transport error
from `httpClient.Do`, or a response with a status code. -/
inductive HttpOutcome where
  | transportError
  | response (status : Nat)
deriving DecidableEq, Repr

/-- Final outcome of `DownloadHTTP`. -/
inductive DownloadStatus where
  | success (attempt : Nat)
  | clientError (status : Nat)
  | failedAfterRetries
deriving DecidableEq, Repr

/-- Observable trace of `DownloadHTTP`: number of attempts made, the
backoff delays slept (seconds, in order), and the final outcome. -/
structure DownloadTrace where
  attemptsMade : Nat
  delays : List Nat
  status : DownloadStatus
deriving DecidableEq, Repr

/-- Embeds the retry loop of `DownloadHTTP`
(`src/internal/worker/download.go`, lines 179-206):
`for attempt := 0; attempt < 3; attempt++ { if attempt > 0 { sleep
2^attempt seconds }; do request; 200 → return; 4xx → return error;
otherwise retry }`. `remaining` counts loop iterations left. -/
def downloadGo (respond : Nat → HttpOutcome) : Nat → Nat → List Nat → DownloadTrace
  | 0, attempt, delays => ⟨attempt, delays, DownloadStatus.failedAfterRetries⟩
  | remaining + 1, attempt, delays =>
    let delays2 := if 0 < attempt then delays ++ [2 ^ attempt] else delays
    match respond attempt with
    | HttpOutcome.transportError => downloadGo respond remaining (attempt + 1) delays2
    | HttpOutcome.response status =>
      if status = 200 then ⟨attempt + 1, delays2, DownloadStatus.success attempt⟩
      else if 400 ≤ status ∧ status < 500 then
        ⟨attempt + 1, delays2, DownloadStatus.clientError status⟩
      else downloadGo respond remaining (attempt + 1) delays2

/-- Entry point `DownloadHTTP`: the retry loop with three iterations from attempt 0. -/
def downloadHTTP (respond : Nat → HttpOutcome) : DownloadTrace :=
  downloadGo respond 3 0 []

/-- An attempt outcome the loop retries after: a transport error, or a
status that is neither 200 nor in the 4xx range. -/
def retryable : HttpOutcome → Prop
  | HttpOutcome.transportError => True
  | HttpOutcome.response s => s ≠ 200 ∧ ¬(400 ≤ s ∧ s < 500)

/-- Per-URL result of the pipeline (`worker.PipelineResult`,
`src/unnamed/part_012`): the URL, its rate results and an optional error
message. -/
structure PipelineResult where
  url : String
  results : List RateResult
  err : Option String
deriving DecidableEq, Repr

/-- Embeds `Pool.Run` (`src/unnamed/part_012`, lines 140-176): one
goroutine per URL writes exactly its own slot `results[idx]`. A goroutine
whose semaphore wait ends in cancellation stores
`PipelineResult{URL: u, Err: ctx.Err()}`; otherwise it stores the
`RunPipeline` result for its URL, which always carries `URL: u`
(`result := &PipelineResult{URL: url}`). `pipe i u` abstracts the
results/error the pipeline produces for slot `i`; `cancelled i` abstracts
whether slot `i` observed cancellation while waiting. Because each slot is
written once by its own goroutine, interleaving cannot affect slot
contents, and the model lists the slots in input order. -/
def poolRun (cancelled : Nat → Bool)
    (pipe : Nat → String → List RateResult × Option String) :
    Nat → List String → List PipelineResult
  | _, [] => []
  | i, u :: rest =>
    (if cancelled i then ⟨u, [], some "context canceled"⟩
     else ⟨u, (pipe i u).1, (pipe i u).2⟩) :: poolRun cancelled pipe (i + 1) rest

/-- Pipeline behaviour fixture: URL "a" fails, everything else succeeds
with no results. -/
def exPipe : Nat → String → List RateResult × Option String :=
  fun _ u => if u = "a" then ([], some "download failed") else ([], none)

/-- Same as `exPipe` but slot 0 behaves differently. -/
def exPipe2 : Nat → String → List RateResult × Option String :=
  fun i u => if i = 0 then ([], some "other error") else exPipe i u


/-- Every serialized value starts with a token that is not a closing
delimiter. -/
theorem toTokens_head_ne (v : Json) :
    ∃ t ts, Json.toTokens v = t :: ts ∧ t ≠ JToken.rbrack ∧ t ≠ JToken.rbrace := by
  cases v <;> simp [Json.toTokens]

/-- A serialized value is a nonempty token stream. -/
theorem toTokens_length_pos (v : Json) : 1 ≤ (Json.toTokens v).length := by
  obtain ⟨t, ts, heq, -, -⟩ := toTokens_head_ne v
  simp [heq]

/-- Unfolding of the array-skip loop at a non-closing head token. -/
theorem skipElements_cons_ne (fuel : Nat) (t : JToken) (rest : List JToken)
    (h : t ≠ JToken.rbrack) :
    skipElements (fuel + 1) (t :: rest) =
      (skipValue fuel (t :: rest)).bind (skipElements fuel) := by
  cases t <;> simp [skipElements] at h ⊢

mutual

/-- The skipper `skipValue` consumes exactly one serialized JSON value, leaving the
rest of the stream, for any fuel at least the value's token count. -/
theorem skipValue_toTokens : ∀ (v : Json) (rest : List JToken) (fuel : Nat),
    (Json.toTokens v).length ≤ fuel →
    skipValue fuel (Json.toTokens v ++ rest) = some rest
  | Json.num q, rest, fuel, h => by
    simp only [Json.toTokens, List.length_singleton] at h
    obtain ⟨f, rfl⟩ : ∃ g, fuel = g + 1 := ⟨fuel - 1, by omega⟩
    simp [Json.toTokens, skipValue]
  | Json.str s, rest, fuel, h => by
    simp only [Json.toTokens, List.length_singleton] at h
    obtain ⟨f, rfl⟩ : ∃ g, fuel = g + 1 := ⟨fuel - 1, by omega⟩
    simp [Json.toTokens, skipValue]
  | Json.boolean b, rest, fuel, h => by
    simp only [Json.toTokens, List.length_singleton] at h
    obtain ⟨f, rfl⟩ : ∃ g, fuel = g + 1 := ⟨fuel - 1, by omega⟩
    simp [Json.toTokens, skipValue]
  | Json.null, rest, fuel, h => by
    simp only [Json.toTokens, List.length_singleton] at h
    obtain ⟨f, rfl⟩ : ∃ g, fuel = g + 1 := ⟨fuel - 1, by omega⟩
    simp [Json.toTokens, skipValue]
  | Json.arr es, rest, fuel, h => by
    simp only [Json.toTokens, List.length_cons, List.length_append,
      List.length_singleton] at h
    obtain ⟨f, rfl⟩ : ∃ g, fuel = g + 1 := ⟨fuel - 1, by omega⟩
    have hstream : Json.toTokens (Json.arr es) ++ rest =
        JToken.lbrack :: (tokensOfElems es ++ (JToken.rbrack :: rest)) := by
      simp [Json.toTokens]
    rw [hstream]
    show skipElements f (tokensOfElems es ++ (JToken.rbrack :: rest)) = some rest
    exact skipElements_tokensOfElems es rest f (by omega)
  | Json.obj fs, rest, fuel, h => by
    simp only [Json.toTokens, List.length_cons, List.length_append,
      List.length_singleton] at h
    obtain ⟨f, rfl⟩ : ∃ g, fuel = g + 1 := ⟨fuel - 1, by omega⟩
    have hstream : Json.toTokens (Json.obj fs) ++ rest =
        JToken.lbrace :: (tokensOfFields fs ++ (JToken.rbrace :: rest)) := by
      simp [Json.toTokens]
    rw [hstream]
    show skipMembers f (tokensOfFields fs ++ (JToken.rbrace :: rest)) = some rest
    exact skipMembers_tokensOfFields fs rest f (by omega)

/-- The array loop of `skipValue` consumes serialized elements up to and
including the closing bracket. -/
theorem skipElements_tokensOfElems : ∀ (es : List Json) (rest : List JToken) (fuel : Nat),
    (tokensOfElems es).length + 1 ≤ fuel →
    skipElements fuel (tokensOfElems es ++ (JToken.rbrack :: rest)) = some rest
  | [], rest, fuel, h => by
    simp only [tokensOfElems, List.length_nil] at h
    obtain ⟨f, rfl⟩ : ∃ g, fuel = g + 1 := ⟨fuel - 1, by omega⟩
    simp [tokensOfElems, skipElements]
  | e :: es, rest, fuel, h => by
    simp only [tokensOfElems, List.length_append] at h
    have he1 := toTokens_length_pos e
    obtain ⟨f, rfl⟩ : ∃ g, fuel = g + 1 := ⟨fuel - 1, by omega⟩
    obtain ⟨t, ts, heq, hne, -⟩ := toTokens_head_ne e
    have hstream : tokensOfElems (e :: es) ++ (JToken.rbrack :: rest) =
        t :: (ts ++ (tokensOfElems es ++ (JToken.rbrack :: rest))) := by
      simp [tokensOfElems, heq]
    rw [hstream, skipElements_cons_ne f t _ hne]
    have hback : t :: (ts ++ (tokensOfElems es ++ (JToken.rbrack :: rest))) =
        Json.toTokens e ++ (tokensOfElems es ++ (JToken.rbrack :: rest)) := by
      simp [heq]
    rw [hback, skipValue_toTokens e _ f (by omega)]
    exact skipElements_tokensOfElems es rest f (by omega)

/-- The object loop of `skipValue` consumes serialized fields up to and
including the closing brace. -/
theorem skipMembers_tokensOfFields : ∀ (fs : List (String × Json)) (rest : List JToken) (fuel : Nat),
    (tokensOfFields fs).length + 1 ≤ fuel →
    skipMembers fuel (tokensOfFields fs ++ (JToken.rbrace :: rest)) = some rest
  | [], rest, fuel, h => by
    simp only [tokensOfFields, List.length_nil] at h
    obtain ⟨f, rfl⟩ : ∃ g, fuel = g + 1 := ⟨fuel - 1, by omega⟩
    simp [tokensOfFields, skipMembers]
  | (k, v) :: fs, rest, fuel, h => by
    simp only [tokensOfFields, List.length_cons, List.length_append] at h
    obtain ⟨f, rfl⟩ : ∃ g, fuel = g + 1 := ⟨fuel - 1, by omega⟩
    have hstream : tokensOfFields ((k, v) :: fs) ++ (JToken.rbrace :: rest) =
        JToken.jstr k :: (Json.toTokens v ++ (tokensOfFields fs ++ (JToken.rbrace :: rest))) := by
      simp [tokensOfFields]
    rw [hstream]
    show (skipValue f (Json.toTokens v ++ (tokensOfFields fs ++ (JToken.rbrace :: rest)))).bind
        (skipMembers f) = some rest
    rw [skipValue_toTokens v _ f (by omega)]
    exact skipMembers_tokensOfFields fs rest f (by omega)

end

/-- A step on an irrelevant key leaves the state unchanged (the `default`
branch of the key switch). -/
theorem streamParseStep_irrelevant (targets : List Int) (src : String)
    (prebuilt : Option MatchedProviders) (k : String) (v : Json) (st : ParseState)
    (h : relevantKey k = false) :
    streamParseStep targets src prebuilt k v st = some st := by
  simp only [relevantKey, Bool.or_eq_false_iff, beq_eq_false_iff_ne, ne_eq] at h
  simp [streamParseStep, h.1, h.2]

/-- The key loop distributes over concatenation of field lists. -/
theorem streamParseLoop_append (targets : List Int) (src : String)
    (prebuilt : Option MatchedProviders) :
    ∀ (d1 d2 : List (String × Json)) (st : ParseState),
    streamParseLoop targets src prebuilt (d1 ++ d2) st =
      (streamParseLoop targets src prebuilt d1 st).bind
        (streamParseLoop targets src prebuilt d2)
  | [], d2, st => by simp [streamParseLoop]
  | (k, v) :: rest, d2, st => by
    simp only [List.cons_append, streamParseLoop]
    cases streamParseStep targets src prebuilt k v st with
    | none => simp
    | some st2 => simp [streamParseLoop_append targets src prebuilt rest d2 st2]

/-- A block of irrelevant keys is a no-op for the key loop. -/
theorem streamParseLoop_irrelevant_block (targets : List Int) (src : String)
    (prebuilt : Option MatchedProviders) :
    ∀ (doc : List (String × Json)) (st : ParseState),
    (∀ kv ∈ doc, relevantKey kv.1 = false) →
    streamParseLoop targets src prebuilt doc st = some st
  | [], st, _ => rfl
  | (k, v) :: rest, st, h => by
    have hk := h (k, v) (by simp)
    simp only [streamParseLoop, streamParseStep_irrelevant targets src prebuilt k v st hk,
      Option.some_bind]
    exact streamParseLoop_irrelevant_block targets src prebuilt rest st
      (fun kv hkv => h kv (List.mem_cons_of_mem _ hkv))

/-- The key loop only looks at the relevant keys: filtering out all other
fields does not change the outcome. -/
theorem streamParseLoop_filter (targets : List Int) (src : String)
    (prebuilt : Option MatchedProviders) :
    ∀ (doc : List (String × Json)) (st : ParseState),
    streamParseLoop targets src prebuilt doc st =
      streamParseLoop targets src prebuilt (doc.filter (fun kv => relevantKey kv.1)) st
  | [], st => rfl
  | (k, v) :: rest, st => by
    by_cases hk : relevantKey k = true
    · rw [List.filter_cons_of_pos (by simpa using hk)]
      simp only [streamParseLoop]
      cases streamParseStep targets src prebuilt k v st with
      | none => rfl
      | some st2 => simp [streamParseLoop_filter targets src prebuilt rest st2]
    · have hkf : relevantKey k = false := by simpa using hk
      rw [List.filter_cons_of_neg (by simp [hkf])]
      simp only [streamParseLoop, streamParseStep_irrelevant targets src prebuilt k v st hkf,
        Option.some_bind]
      exact streamParseLoop_filter targets src prebuilt rest st

/-- On the second pass (`prebuilt` non-nil) a step never touches the
index, the skipped flag, the seen flag or the refs counter:
`provider_references` is skipped outright and only `in_network` is
processed. -/
theorem streamParseStep_prebuilt (targets : List Int) (src : String)
    (idx : MatchedProviders) (k : String) (v : Json) (st st2 : ParseState)
    (h : streamParseStep targets src (some idx) k v st = some st2) :
    st2.matched = st.matched ∧ st2.skippedInNetwork = st.skippedInNetwork ∧
      st2.refsCount = st.refsCount ∧ st2.seenProviderRefs = st.seenProviderRefs := by
  simp only [streamParseStep] at h
  repeat' split at h
  all_goals
    first
      | (simp_all
         done)
      | (simp only [Option.some.injEq] at h
         subst h
         refine ⟨?_, ?_, ?_, ?_⟩ <;> simp)

/-- Second-pass key loop: the index, skipped flag, seen flag and refs
counter pass through unchanged. -/
theorem streamParseLoop_prebuilt (targets : List Int) (src : String)
    (idx : MatchedProviders) :
    ∀ (doc : List (String × Json)) (st st2 : ParseState),
    streamParseLoop targets src (some idx) doc st = some st2 →
    st2.matched = st.matched ∧ st2.skippedInNetwork = st.skippedInNetwork ∧
      st2.refsCount = st.refsCount ∧ st2.seenProviderRefs = st.seenProviderRefs
  | [], st, st2, h => by
    simp [streamParseLoop] at h
    simp [← h]
  | (k, v) :: rest, st, st2, h => by
    simp only [streamParseLoop] at h
    rcases Option.bind_eq_some.mp h with ⟨mid, hstep, hloop⟩
    have h1 := streamParseStep_prebuilt targets src idx k v st mid hstep
    have h2 := streamParseLoop_prebuilt targets src idx rest mid st2 hloop
    exact ⟨h2.1.trans h1.1, h2.2.1.trans h1.2.1, h2.2.2.1.trans h1.2.2.1,
      h2.2.2.2.trans h1.2.2.2⟩

/-- A step never clears the seen or skipped flags. -/
theorem streamParseStep_mono (targets : List Int) (src : String)
    (prebuilt : Option MatchedProviders) (k : String) (v : Json) (st st2 : ParseState)
    (h : streamParseStep targets src prebuilt k v st = some st2) :
    (st.seenProviderRefs = true → st2.seenProviderRefs = true) ∧
      (st.skippedInNetwork = true → st2.skippedInNetwork = true) := by
  simp only [streamParseStep] at h
  repeat' split at h
  all_goals
    first
      | (simp_all
         done)
      | (simp only [Option.some.injEq] at h
         subst h
         constructor <;> (intro hx; simp [hx]))

/-- The key loop never clears the seen or skipped flags. -/
theorem streamParseLoop_mono (targets : List Int) (src : String)
    (prebuilt : Option MatchedProviders) :
    ∀ (doc : List (String × Json)) (st st2 : ParseState),
    streamParseLoop targets src prebuilt doc st = some st2 →
    (st.seenProviderRefs = true → st2.seenProviderRefs = true) ∧
      (st.skippedInNetwork = true → st2.skippedInNetwork = true)
  | [], st, st2, h => by
    simp [streamParseLoop] at h
    simp [← h]
  | (k, v) :: rest, st, st2, h => by
    simp only [streamParseLoop] at h
    rcases Option.bind_eq_some.mp h with ⟨mid, hstep, hloop⟩
    have h1 := streamParseStep_mono targets src prebuilt k v st mid hstep
    have h2 := streamParseLoop_mono targets src prebuilt rest mid st2 hloop
    exact ⟨fun hx => h2.1 (h1.1 hx), fun hx => h2.2 (h1.2 hx)⟩

/-- After `provider_references` has been seen on a first pass, an
`in_network` key can no longer set the skipped flag. -/
theorem streamParseStep_skipped_of_seen (targets : List Int) (src : String)
    (k : String) (v : Json) (st st2 : ParseState)
    (hs : st.seenProviderRefs = true)
    (h : streamParseStep targets src none k v st = some st2) :
    st2.skippedInNetwork = st.skippedInNetwork := by
  simp only [streamParseStep] at h
  repeat' split at h
  all_goals
    first
      | (simp_all
         done)
      | (simp only [Option.some.injEq] at h
         subst h
         simp)

/-- Loop form of `streamParseStep_skipped_of_seen`. -/
theorem streamParseLoop_skipped_of_seen (targets : List Int) (src : String) :
    ∀ (doc : List (String × Json)) (st st2 : ParseState),
    st.seenProviderRefs = true →
    streamParseLoop targets src none doc st = some st2 →
    st2.skippedInNetwork = st.skippedInNetwork
  | [], st, st2, _, h => by
    simp [streamParseLoop] at h
    simp [← h]
  | (k, v) :: rest, st, st2, hs, h => by
    simp only [streamParseLoop] at h
    rcases Option.bind_eq_some.mp h with ⟨mid, hstep, hloop⟩
    have hmid := streamParseStep_skipped_of_seen targets src k v st mid hs hstep
    have hseen2 := (streamParseStep_mono targets src none k v st mid hstep).1 hs
    have := streamParseLoop_skipped_of_seen targets src rest mid st2 hseen2 hloop
    rw [this, hmid]

/-- First-pass characterization of the skipped flag: starting from a fresh
state, the loop ends with `skippedInNetwork` set exactly when some
`in_network` key preceded every `provider_references` key. -/
theorem streamParseLoop_skipped_char (targets : List Int) (src : String) :
    ∀ (doc : List (String × Json)) (st st2 : ParseState),
    st.seenProviderRefs = false → st.skippedInNetwork = false →
    streamParseLoop targets src none doc st = some st2 →
    st2.skippedInNetwork = hasEarlyInNetwork doc
  | [], st, st2, _, hskip, h => by
    simp [streamParseLoop] at h
    simp [hasEarlyInNetwork, ← h, hskip]
  | (k, v) :: rest, st, st2, hseen, hskip, h => by
    simp only [streamParseLoop] at h
    rcases Option.bind_eq_some.mp h with ⟨mid, hstep, hloop⟩
    by_cases h1 : k = "provider_references"
    · subst h1
      cases v with
      | arr elems =>
        have hmid : some { st with
            seenProviderRefs := true
            refsCount := st.refsCount + elems.length
            matched := streamProviderReferences targets st.matched elems
            stages := st.stages ++ ["Streaming: provider_references"] } = some mid := by
          rw [← hstep]
          simp [streamParseStep]
        simp only [Option.some.injEq] at hmid
        have hseen2 : mid.seenProviderRefs = true := by simp [← hmid]
        have hsk := streamParseLoop_skipped_of_seen targets src rest mid st2 hseen2 hloop
        rw [hsk, ← hmid]
        simp [hasEarlyInNetwork, hskip]
      | num q => simp [streamParseStep] at hstep
      | str s => simp [streamParseStep] at hstep
      | boolean b => simp [streamParseStep] at hstep
      | null => simp [streamParseStep] at hstep
      | obj fields => simp [streamParseStep] at hstep
    · by_cases h2 : k = "in_network"
      · subst h2
        have hmid : some { st with
            skippedInNetwork := true
            warnings := st.warnings ++
              ["in_network appeared before provider_references; will require second pass"] } =
            some mid := by
          rw [← hstep]
          simp [streamParseStep, h1, hseen]
        simp only [Option.some.injEq] at hmid
        have hsk : mid.skippedInNetwork = true := by simp [← hmid]
        have := (streamParseLoop_mono targets src none rest mid st2 hloop).2 hsk
        rw [this]
        simp [hasEarlyInNetwork, h1]
      · have hkf : relevantKey k = false := by
          simp only [relevantKey, Bool.or_eq_false_iff, beq_eq_false_iff_ne, ne_eq]
          exact ⟨h1, h2⟩
        rw [streamParseStep_irrelevant targets src none k v st hkf] at hstep
        simp only [Option.some.injEq] at hstep
        subst hstep
        have := streamParseLoop_skipped_char targets src rest st st2 hseen hskip hloop
        rw [this]
        simp [hasEarlyInNetwork, h1, h2]

/-- Unpacking an emitted result: it is the `RateResult` literal built from
some rate of the element, some candidate provider of that rate and some
price of that rate, with the description computed from `name` and
`description`. -/
theorem mem_emitInNetworkResults {targets : List Int}
    {matched : Option MatchedProviders} {srcFile : String} {item : InNetworkItem}
    {r : RateResult} (h : r ∈ emitInNetworkResults targets matched srcFile item) :
    ∃ nr ∈ item.negotiated_rates, ∃ prov ∈ candidateProviders targets matched nr,
      ∃ price ∈ nr.negotiated_prices,
        r = mkRateResult item (if item.name = "" then item.description else item.name)
              srcFile prov price := by
  simp only [emitInNetworkResults, List.mem_flatMap] at h
  rcases h with ⟨nr, hnr, hr⟩
  by_cases hp : candidateProviders targets matched nr = []
  · rw [if_pos hp] at hr
    simp at hr
  · rw [if_neg hp] at hr
    simp only [emitForRate, List.mem_flatMap, List.mem_map] at hr
    rcases hr with ⟨prov, hprov, price, hprice, heq⟩
    exact ⟨nr, hnr, prov, hprov, price, hprice, heq.symm⟩

/-- Emission count for one rate: one result per provider × price pair. -/
theorem emitForRate_length (item : InNetworkItem) (descr srcFile : String) :
    ∀ (providers : List ProviderInfo) (nr : NegotiatedRate),
    (emitForRate item descr srcFile providers nr).length =
      providers.length * nr.negotiated_prices.length
  | [], nr => by simp [emitForRate]
  | p :: ps, nr => by
    have ih := emitForRate_length item descr srcFile ps nr
    simp only [emitForRate, List.flatMap_cons, List.length_append, List.length_map,
      List.length_cons] at ih ⊢
    rw [ih]
    ring

/-- Appending via `addEntryList` preserves the target invariant when the appended
provider has a target NPI. -/
theorem addEntryList_only_targets {targets : List Int} {info0 : ProviderInfo}
    (hinf : info0.npi ∈ targets) :
    ∀ (l : List (Rat × List ProviderInfo)) (id : Rat),
    (∀ p ∈ l, ∀ info ∈ p.2, info.npi ∈ targets) →
    ∀ p ∈ addEntryList l id info0, ∀ info ∈ p.2, info.npi ∈ targets
  | [], id, _, p, hp, info, hi => by
    simp [addEntryList] at hp
    subst hp
    simp at hi
    subst hi
    exact hinf
  | (k, infos) :: rest, id, hl, p, hp, info, hi => by
    simp only [addEntryList] at hp
    by_cases hk : k = id
    · rw [if_pos hk] at hp
      rcases List.mem_cons.mp hp with rfl | hp2
      · rcases (by simpa using hi : info ∈ infos ∨ info = info0) with hi2 | rfl
        · exact hl (k, infos) (by simp) info hi2
        · exact hinf
      · exact hl p (List.mem_cons_of_mem _ hp2) info hi
    · rw [if_neg hk] at hp
      rcases List.mem_cons.mp hp with rfl | hp2
      · exact hl (k, infos) (by simp) info hi
      · exact addEntryList_only_targets hinf rest id
          (fun q hq => hl q (List.mem_cons_of_mem _ hq)) p hp2 info hi

/-- The NPI loop of `extractProviderRef` preserves the target invariant:
entries are appended only under the `npi ∈ targets` check. -/
theorem foldl_addEntry_only_targets (targets : List Int) (gid : Rat) (tin : TIN) :
    ∀ (npis : List Int) (m : MatchedProviders), IndexOnlyTargets targets m →
    IndexOnlyTargets targets
      (npis.foldl (fun acc npi => if npi ∈ targets then acc.addEntry gid ⟨npi, tin⟩ else acc) m)
  | [], _, hm => hm
  | n :: ns, m, hm => by
    simp only [List.foldl_cons]
    apply foldl_addEntry_only_targets targets gid tin ns
    by_cases hn : n ∈ targets
    · simp only [if_pos hn]
      exact fun p hp info hi => addEntryList_only_targets hn m.byGroupID gid hm p hp info hi
    · simpa [hn] using hm

/-- Extraction via `addProviderGroup` preserves the target invariant. -/
theorem addProviderGroup_only_targets (targets : List Int) (gid : Rat)
    (pg : ProviderGroup) (m : MatchedProviders) (hm : IndexOnlyTargets targets m) :
    IndexOnlyTargets targets (addProviderGroup targets gid m pg) :=
  foldl_addEntry_only_targets targets gid pg.tin pg.npi m hm

/-- Extraction via `extractProviderRef` preserves the target invariant. -/
theorem foldl_addPG_only_targets (targets : List Int) (gid : Rat) :
    ∀ (pgs : List ProviderGroup) (m : MatchedProviders), IndexOnlyTargets targets m →
    IndexOnlyTargets targets (pgs.foldl (fun acc pg => addProviderGroup targets gid acc pg) m)
  | [], _, hm => hm
  | pg :: pgs, m, hm => by
    simp only [List.foldl_cons]
    exact foldl_addPG_only_targets targets gid pgs _
      (addProviderGroup_only_targets targets gid pg m hm)

/-- Index-building form of the invariant for `extractProviderRef`. -/
theorem extractProviderRef_only_targets (targets : List Int) (ref : ProviderReference)
    (m : MatchedProviders) (hm : IndexOnlyTargets targets m) :
    IndexOnlyTargets targets (extractProviderRef targets m ref) :=
  foldl_addPG_only_targets targets ref.provider_group_id ref.provider_groups m hm

/-- Streaming via `streamProviderReferences` preserves the target invariant. -/
theorem streamProviderReferences_only_targets (targets : List Int) :
    ∀ (elems : List Json) (m : MatchedProviders), IndexOnlyTargets targets m →
    IndexOnlyTargets targets (streamProviderReferences targets m elems)
  | [], _, hm => hm
  | e :: es, m, hm => by
    simp only [streamProviderReferences, List.foldl_cons]
    apply streamProviderReferences_only_targets targets es
    unfold streamProviderRefsStep
    cases decodeProviderReference e with
    | none => exact hm
    | some ref => exact extractProviderRef_only_targets targets ref m hm

/-- The empty index satisfies the target invariant. -/
theorem indexOnlyTargets_empty (targets : List Int) :
    IndexOnlyTargets targets MatchedProviders.empty := by
  intro p hp
  simp [MatchedProviders.empty] at hp

/-- A successful lookup comes from an entry of the association list. -/
theorem find_mem_byGroupID {m : MatchedProviders} {id : Rat} {infos : List ProviderInfo}
    (h : m.find id = some infos) : ∃ k, (k, infos) ∈ m.byGroupID := by
  simp only [MatchedProviders.find, Option.map_eq_some'] at h
  rcases h with ⟨kv, hfind, hsnd⟩
  exact ⟨kv.1, by
    have hmem := List.mem_of_find?_eq_some hfind
    rwa [show (kv.1, infos) = kv from by rw [← hsnd]]⟩

/-- Every candidate provider of a rate has a target NPI: inline candidates
are filtered by the target check, and index candidates satisfy the index
invariant. -/
theorem candidateProviders_only_targets {targets : List Int} {m : MatchedProviders}
    {nr : NegotiatedRate} {prov : ProviderInfo}
    (hm : IndexOnlyTargets targets m)
    (hp : prov ∈ candidateProviders targets (some m) nr) :
    prov.npi ∈ targets := by
  simp only [candidateProviders, List.mem_append, List.mem_flatMap, List.mem_map,
    List.mem_filter] at hp
  rcases hp with ⟨refID, -, hfind⟩ | ⟨pg, -, npi, hnpi, rfl⟩
  · cases hf : m.find refID with
    | none => rw [hf] at hfind; simp at hfind
    | some infos =>
      rw [hf] at hfind
      simp only [Option.getD_some] at hfind
      obtain ⟨k, hk⟩ := find_mem_byGroupID hf
      exact hm (k, infos) hk prov hfind
  · simpa using hnpi.2

/-- Every result of one in_network element has a target NPI, provided the
index only stores target providers. -/
theorem processInNetworkElement_only_targets {targets : List Int} {m : MatchedProviders}
    {srcFile : String} {raw : Json} {r : RateResult}
    (hm : IndexOnlyTargets targets m)
    (hr : r ∈ processInNetworkElement targets m srcFile raw) :
    r.npi ∈ targets := by
  unfold processInNetworkElement at hr
  cases hdec : decodeInNetworkItem raw with
  | none => rw [hdec] at hr; simp at hr
  | some item =>
    rw [hdec] at hr
    obtain ⟨nr, -, prov, hprov, price, -, rfl⟩ := mem_emitInNetworkResults hr
    exact candidateProviders_only_targets hm hprov

/-- A step preserves the target invariant of the index and of the result
buffer. -/
theorem streamParseStep_good (targets : List Int) (src : String)
    (prebuilt : Option MatchedProviders) (k : String) (v : Json) (st st2 : ParseState)
    (h : streamParseStep targets src prebuilt k v st = some st2)
    (hidx : IndexOnlyTargets targets st.matched)
    (hres : ∀ r ∈ st.results, r.npi ∈ targets) :
    IndexOnlyTargets targets st2.matched ∧ ∀ r ∈ st2.results, r.npi ∈ targets := by
  simp only [streamParseStep] at h
  repeat' split at h
  all_goals
    first
      | (simp_all
         done)
      | (simp only [Option.some.injEq] at h
         subst h
         constructor
         · first
             | exact hidx
             | exact streamProviderReferences_only_targets targets _ _ hidx
         · intro r hr
           first
             | exact hres r hr
             | (rcases (by simpa using hr :
                  r ∈ st.results ∨ ∃ raw, raw ∈ _ ∧
                    r ∈ processInNetworkElement targets st.matched src raw) with
                  hr2 | ⟨raw, -, hraw⟩
                · exact hres r hr2
                · exact processInNetworkElement_only_targets hidx hraw))

/-- The key loop preserves the target invariant of the index and results. -/
theorem streamParseLoop_good (targets : List Int) (src : String)
    (prebuilt : Option MatchedProviders) :
    ∀ (doc : List (String × Json)) (st st2 : ParseState),
    streamParseLoop targets src prebuilt doc st = some st2 →
    IndexOnlyTargets targets st.matched →
    (∀ r ∈ st.results, r.npi ∈ targets) →
    IndexOnlyTargets targets st2.matched ∧ ∀ r ∈ st2.results, r.npi ∈ targets
  | [], st, st2, h, hidx, hres => by
    simp [streamParseLoop] at h
    exact h ▸ ⟨hidx, hres⟩
  | (k, v) :: rest, st, st2, h, hidx, hres => by
    simp only [streamParseLoop] at h
    rcases Option.bind_eq_some.mp h with ⟨mid, hstep, hloop⟩
    obtain ⟨hidx2, hres2⟩ := streamParseStep_good targets src prebuilt k v st mid hstep hidx hres
    exact streamParseLoop_good targets src prebuilt rest mid st2 hloop hidx2 hres2

/-- C2: for every input document, target set, source name and callback
configuration, every RateResult passed to the emit callback has an `npi`
field that is a member of the target-NPI set; moreover the returned index
only stores target providers (so a second pass run with it keeps the
invariant). The prebuilt index, when given, is assumed to satisfy the
index invariant, which is exactly what the first pass guarantees. -/
theorem c2_emitted_npi_in_targets (targets : List Int) (src : String)
    (prebuilt : Option MatchedProviders) (doc : List (String × Json)) (out : StreamOut)
    (hpre : IndexOnlyTargets targets (prebuilt.getD MatchedProviders.empty))
    (h : streamParse targets src prebuilt doc = some out) :
    (∀ r ∈ out.results, r.npi ∈ targets) ∧ IndexOnlyTargets targets out.matched := by
  simp only [streamParse, Option.map_eq_some'] at h
  rcases h with ⟨st, hloop, hf⟩
  have hg := streamParseLoop_good targets src prebuilt doc _ st hloop
    (by simpa [initState] using hpre) (by simp [initState])
  subst hf
  exact ⟨hg.2, hg.1⟩

/-- Witness for C2 at the basic fixture document. -/
theorem c2_witness : exResult0.npi ∈ exTargets :=
  (c2_emitted_npi_in_targets exTargets "t" none exDocBasic exOutBasic
    (indexOnlyTargets_empty exTargets) rfl).1 exResult0 (by simp [exOutBasic])

/-- C4: for every emitted RateResult, `billing_code_description` equals the
source element's `name` when `name` is non-empty, and equals the element's
`description` otherwise. -/
theorem c4_billing_code_description (targets : List Int)
    (matched : Option MatchedProviders) (srcFile : String) (item : InNetworkItem)
    (r : RateResult) (hr : r ∈ emitInNetworkResults targets matched srcFile item) :
    (item.name ≠ "" → r.billing_code_description = item.name) ∧
      (item.name = "" → r.billing_code_description = item.description) := by
  obtain ⟨nr, -, prov, -, price, -, rfl⟩ := mem_emitInNetworkResults hr
  constructor
  · intro hn
    simp [mkRateResult, if_neg hn]
  · intro hn
    simp [mkRateResult, if_pos hn]

/-- Witness for C4: the fixture element has non-empty name
"Office visit", and the emitted result carries it. -/
theorem c4_witness : exResult0.billing_code_description = exItemD.name :=
  (c4_billing_code_description exTargets (some exIdx) "t" exItemD exResult0
    (by rw [show emitInNetworkResults exTargets (some exIdx) "t" exItemD = [exResult0] from rfl]
        exact List.mem_singleton_self _)).1 (by decide)

/-- C5: on a first pass (no prebuilt index) `NeedSecondPass` is true
exactly when `in_network` was skipped for appearing before
`provider_references` (`hasEarlyInNetwork`) and the built index is
non-empty; on a second pass (prebuilt index given) `provider_references`
is skipped without rebuilding the index (the returned index is the
prebuilt one and no refs are scanned) and `NeedSecondPass` is always
false. -/
theorem c5_two_pass_protocol (targets : List Int) (src : String)
    (doc : List (String × Json)) :
    (∀ out, streamParse targets src none doc = some out →
      out.needSecondPass = (hasEarlyInNetwork doc && !out.matched.isEmpty)) ∧
    (∀ idx out, streamParse targets src (some idx) doc = some out →
      out.needSecondPass = false ∧ out.matched = idx ∧ out.refsScanned = 0) := by
  constructor
  · intro out hout
    simp only [streamParse, Option.map_eq_some'] at hout
    rcases hout with ⟨st, hloop, hf⟩
    have hchar := streamParseLoop_skipped_char targets src doc _ st rfl rfl hloop
    subst hf
    simp [hchar]
  · intro idx out hout
    simp only [streamParse, Option.map_eq_some'] at hout
    rcases hout with ⟨st, hloop, hf⟩
    have hpre := streamParseLoop_prebuilt targets src idx doc _ st hloop
    subst hf
    refine ⟨?_, ?_, ?_⟩ <;>
      simp [hpre.1, hpre.2.1, hpre.2.2.1, initState]

/-- Witness for C5: on the reversed fixture document the first pass
returns `NeedSecondPass = true` with the non-empty built index. -/
theorem c5_witness :
    streamParse exTargets "t" none exDocRev = some exOutRev ∧
      exOutRev.needSecondPass = (hasEarlyInNetwork exDocRev && !exOutRev.matched.isEmpty) ∧
      (streamParse exTargets "t" (some exIdx) exDocRev).map (·.needSecondPass) = some false :=
  ⟨rfl, (c5_two_pass_protocol exTargets "t" exDocRev).1 exOutRev rfl, by
    cases hout : streamParse exTargets "t" (some exIdx) exDocRev with
    | none => exact absurd hout (by decide)
    | some out2 =>
      simp [((c5_two_pass_protocol exTargets "t" exDocRev).2 exIdx out2 hout).1]⟩

/-- Lookup after `addEntryList`: the appended provider lands exactly under
its own key; every other key's entry is unchanged. -/
theorem findD_addEntryList (q id : Rat) (info0 : ProviderInfo) :
    ∀ l : List (Rat × List ProviderInfo),
    ((MatchedProviders.mk (addEntryList l id info0)).find q).getD [] =
      (if q = id then (((MatchedProviders.mk l).find q).getD []) ++ [info0]
       else ((MatchedProviders.mk l).find q).getD [])
  | [] => by
    by_cases hq : q = id
    · subst hq
      simp [addEntryList, MatchedProviders.find, List.find?]
    · simp [addEntryList, MatchedProviders.find, List.find?, hq, Ne.symm hq]
  | (k, infos) :: rest => by
    simp only [addEntryList]
    by_cases hki : k = id
    · rw [if_pos hki]
      by_cases hq : q = k
      · subst hq
        simp [MatchedProviders.find, List.find?, hki]
      · have hqi : ¬q = id := fun hcon => hq (hcon.trans hki.symm)
        simp [MatchedProviders.find, List.find?, Ne.symm hq, hqi]
    · rw [if_neg hki]
      by_cases hq : q = k
      · subst hq
        simp [MatchedProviders.find, List.find?, hki]
      · have ih := findD_addEntryList q id info0 rest
        simp only [MatchedProviders.find] at ih ⊢
        rw [List.find?_cons_of_neg _ (by simpa using Ne.symm hq),
          List.find?_cons_of_neg _ (by simpa using Ne.symm hq)]
        exact ih

/-- Index-level form of `findD_addEntryList`. -/
theorem findD_addEntry (q id : Rat) (info0 : ProviderInfo) (m : MatchedProviders) :
    ((m.addEntry id info0).find q).getD [] =
      (if q = id then ((m.find q).getD []) ++ [info0] else (m.find q).getD []) :=
  findD_addEntryList q id info0 m.byGroupID

/-- Lookup after the NPI loop of `extractProviderRef`: new pairs land only
under the element's own `provider_group_id`. -/
theorem findD_foldl_addEntry (targets : List Int) (gid q : Rat) (tin : TIN) :
    ∀ (npis : List Int) (m : MatchedProviders),
    (((npis.foldl
        (fun acc npi => if npi ∈ targets then acc.addEntry gid ⟨npi, tin⟩ else acc) m)).find
          q).getD [] =
      (if q = gid then
        ((m.find q).getD []) ++
          ((npis.filter (fun npi => npi ∈ targets)).map (fun npi => ⟨npi, tin⟩))
       else (m.find q).getD [])
  | [], m => by simp
  | n :: ns, m => by
    simp only [List.foldl_cons, List.filter_cons]
    by_cases hn : n ∈ targets
    · have hnd : decide (n ∈ targets) = true := by simpa using hn
      simp only [if_pos hn, if_pos hnd]
      rw [findD_foldl_addEntry targets gid q tin ns (m.addEntry gid ⟨n, tin⟩),
        findD_addEntry q gid ⟨n, tin⟩ m]
      by_cases hq : q = gid
      · simp [if_pos hq, List.append_assoc]
      · simp [if_neg hq]
    · have hnd : ¬decide (n ∈ targets) = true := by simpa using hn
      simp only [if_neg hn, if_neg hnd]
      exact findD_foldl_addEntry targets gid q tin ns m

/-- Lookup after `addProviderGroup`. -/
theorem findD_addProviderGroup (targets : List Int) (gid q : Rat)
    (pg : ProviderGroup) (m : MatchedProviders) :
    ((addProviderGroup targets gid m pg).find q).getD [] =
      (if q = gid then
        ((m.find q).getD []) ++
          ((pg.npi.filter (fun npi => npi ∈ targets)).map (fun npi => ⟨npi, pg.tin⟩))
       else (m.find q).getD []) :=
  findD_foldl_addEntry targets gid q pg.tin pg.npi m

/-- Lookup after the provider_groups loop of `extractProviderRef`. -/
theorem findD_foldl_addPG (targets : List Int) (gid q : Rat) :
    ∀ (pgs : List ProviderGroup) (m : MatchedProviders),
    ((pgs.foldl (fun acc pg => addProviderGroup targets gid acc pg) m).find q).getD [] =
      (if q = gid then
        ((m.find q).getD []) ++
          pgs.flatMap (fun pg =>
            (pg.npi.filter (fun npi => npi ∈ targets)).map (fun npi => ⟨npi, pg.tin⟩))
       else (m.find q).getD [])
  | [], m => by simp
  | pg :: pgs, m => by
    simp only [List.foldl_cons, List.flatMap_cons]
    rw [findD_foldl_addPG targets gid q pgs (addProviderGroup targets gid m pg)]
    by_cases hq : q = gid
    · rw [if_pos hq, if_pos hq, findD_addProviderGroup, if_pos hq]
      simp
    · rw [if_neg hq, if_neg hq, findD_addProviderGroup, if_neg hq]

/-- Lookup after `extractProviderRef`: an element only ever appends to the
entry of its own full-precision `provider_group_id`. -/
theorem findD_extractProviderRef (targets : List Int) (ref : ProviderReference)
    (q : Rat) (m : MatchedProviders) :
    ((extractProviderRef targets m ref).find q).getD [] =
      (if q = ref.provider_group_id then
        ((m.find q).getD []) ++ refMatchedProviders targets ref
       else (m.find q).getD []) :=
  findD_foldl_addPG targets ref.provider_group_id q ref.provider_groups m

/-- Lookup in the index built from a list of references: exactly the
concatenated contributions of the references whose `provider_group_id`
equals the looked-up key. -/
theorem findD_foldl_extract (targets : List Int) (q : Rat) :
    ∀ (refs : List ProviderReference) (m : MatchedProviders),
    ((refs.foldl (extractProviderRef targets) m).find q).getD [] =
      ((m.find q).getD []) ++
        (refs.filter (fun ref => ref.provider_group_id = q)).flatMap
          (refMatchedProviders targets)
  | [], m => by simp
  | ref :: refs, m => by
    simp only [List.foldl_cons, List.filter_cons]
    rw [findD_foldl_extract targets q refs (extractProviderRef targets m ref)]
    by_cases hq : ref.provider_group_id = q
    · rw [if_pos (by simpa using hq), List.flatMap_cons,
        findD_extractProviderRef targets ref q m, if_pos hq.symm]
      simp
    · rw [if_neg (by simpa using hq), findD_extractProviderRef targets ref q m,
        if_neg (fun hcon => hq hcon.symm)]

/-- Lookup in `buildIndex`. -/
theorem findD_buildIndex (targets : List Int) (q : Rat) (refs : List ProviderReference) :
    ((buildIndex targets refs).find q).getD [] =
      (refs.filter (fun ref => ref.provider_group_id = q)).flatMap
        (refMatchedProviders targets) := by
  unfold buildIndex
  rw [findD_foldl_extract targets q refs MatchedProviders.empty]
  simp [MatchedProviders.empty, MatchedProviders.find]

/-- The candidate list for a non-nil index, unfolded. -/
theorem candidateProviders_some (targets : List Int) (m : MatchedProviders)
    (nr : NegotiatedRate) :
    candidateProviders targets (some m) nr =
      nr.provider_references.flatMap (fun refID => (m.find refID).getD []) ++
        nr.provider_groups.flatMap
          (fun pg => (pg.npi.filter (fun npi => npi ∈ targets)).map
            (fun npi => ⟨npi, pg.tin⟩)) := rfl

/-- C1: distinct provider_group_ids that share an integer part route to
distinct provider-index entries: the entry under a key is exactly the
concatenated contribution of the references whose id equals that key at
full precision (no integer truncation), and an in_network rate
referencing only one of the two ids emits results only from provider
groups of references carrying exactly that id. -/
theorem c1_full_precision_provider_index (targets : List Int)
    (refs : List ProviderReference) (q1 q2 : Rat)
    (hne : q1 ≠ q2) (_hint : ⌊q1⌋ = ⌊q2⌋) :
    (((buildIndex targets refs).find q1).getD [] =
      (refs.filter (fun ref => ref.provider_group_id = q1)).flatMap
        (refMatchedProviders targets)) ∧
    (((buildIndex targets refs).find q2).getD [] =
      (refs.filter (fun ref => ref.provider_group_id = q2)).flatMap
        (refMatchedProviders targets)) ∧
    (∀ ref ∈ refs, ¬(ref.provider_group_id = q1 ∧ ref.provider_group_id = q2)) ∧
    (∀ (item : InNetworkItem) (srcFile : String),
      (∀ nr ∈ item.negotiated_rates,
        nr.provider_references = [q1] ∧ nr.provider_groups = []) →
      ∀ r ∈ emitInNetworkResults targets (some (buildIndex targets refs)) srcFile item,
        ∃ ref ∈ refs, ref.provider_group_id = q1 ∧
          ∃ pg ∈ ref.provider_groups, r.npi ∈ pg.npi ∧ r.tin = pg.tin) := by
  refine ⟨findD_buildIndex targets q1 refs, findD_buildIndex targets q2 refs,
    fun ref _ hcon => hne (hcon.1.symm.trans hcon.2), ?_⟩
  intro item srcFile hlink r hr
  obtain ⟨nr, hnr, prov, hprov, price, -, rfl⟩ := mem_emitInNetworkResults hr
  obtain ⟨hrefs, hgroups⟩ := hlink nr hnr
  rw [candidateProviders_some, hrefs, hgroups] at hprov
  simp only [List.flatMap_nil, List.append_nil, List.flatMap_cons] at hprov
  rw [findD_buildIndex targets q1 refs] at hprov
  rcases List.mem_flatMap.mp hprov with ⟨ref, href, hpr⟩
  rcases List.mem_filter.mp href with ⟨hrefmem, hrefid⟩
  refine ⟨ref, hrefmem, by simpa using hrefid, ?_⟩
  rcases List.mem_flatMap.mp hpr with ⟨pg, hpg, hppg⟩
  rcases List.mem_map.mp hppg with ⟨npi, hnpi, rfl⟩
  exact ⟨pg, hpg, (List.mem_filter.mp hnpi).1, rfl⟩

/-- Witness for C1 at the fractional ids `42.123456789` and
`42.987654321`: the index entry under `42.123456789` is exactly the
matched pair of the reference with that exact id, and the in_network
element referencing only `42.123456789` emits exactly one result, traced
to that reference. -/
theorem c1_witness :
    (((buildIndex exTargets exRefsF).find qF1).getD [] =
      (exRefsF.filter (fun ref => ref.provider_group_id = qF1)).flatMap
        (refMatchedProviders exTargets)) ∧
    ((exRefsF.filter (fun ref => ref.provider_group_id = qF1)).flatMap
        (refMatchedProviders exTargets) = [⟨1234567890, exTIN⟩]) ∧
    (∃ ref ∈ exRefsF, ref.provider_group_id = qF1 ∧
      ∃ pg ∈ ref.provider_groups, exResultF.npi ∈ pg.npi ∧ exResultF.tin = pg.tin) :=
  ⟨(c1_full_precision_provider_index exTargets exRefsF qF1 qF2 (by decide) (by decide)).1,
   rfl,
   (c1_full_precision_provider_index exTargets exRefsF qF1 qF2 (by decide)
      (by decide)).2.2.2 exItemF1D "t"
     (by
       intro nr hnr
       simp only [exItemF1D, List.mem_singleton] at hnr
       subst hnr
       exact ⟨rfl, rfl⟩)
     exResultF
     (by rw [show emitInNetworkResults exTargets (some (buildIndex exTargets exRefsF)) "t"
           exItemF1D = [exResultF] from rfl]
         exact List.mem_singleton_self _)⟩

/-- C3: an in_network element with a single NegotiatedRate whose candidate
provider list has K target-matching pairs and which has M prices emits
exactly K·M RateResults (in particular none when K = 0 or M = 0). -/
theorem c3_k_times_m_results (targets : List Int) (matched : Option MatchedProviders)
    (srcFile : String) (item : InNetworkItem) (nr : NegotiatedRate) (K M : Nat)
    (hrates : item.negotiated_rates = [nr])
    (hK : (candidateProviders targets matched nr).length = K)
    (hM : nr.negotiated_prices.length = M) :
    (emitInNetworkResults targets matched srcFile item).length = K * M := by
  subst hK
  subst hM
  simp only [emitInNetworkResults, hrates, List.flatMap_cons, List.flatMap_nil,
    List.append_nil]
  by_cases hp : candidateProviders targets matched nr = []
  · simp [hp]
  · rw [if_neg hp, emitForRate_length]

/-- Witness for C3: two candidate providers times two prices emit four
results. -/
theorem c3_witness :
    (emitInNetworkResults exTargets2 none "t" exItemKM).length = 2 * 2 :=
  c3_k_times_m_results exTargets2 none "t" exItemKM exRateKM 2 2 rfl rfl rfl

/-- Step evaluation: first-pass `provider_references` with an array
value. -/
theorem streamParseStep_refs_arr (targets : List Int) (src : String)
    (elems : List Json) (st : ParseState) :
    streamParseStep targets src none "provider_references" (Json.arr elems) st =
      some { st with
        seenProviderRefs := true
        refsCount := st.refsCount + elems.length
        matched := streamProviderReferences targets st.matched elems
        stages := st.stages ++ ["Streaming: provider_references"] } := by
  simp [streamParseStep]

/-- Step evaluation: first-pass `in_network` after a non-empty
`provider_references` that produced no matches is skipped. -/
theorem streamParseStep_inNetwork_skip_noMatch (targets : List Int) (src : String)
    (v : Json) (st : ParseState)
    (hseen : st.seenProviderRefs = true) (hrefs : 0 < st.refsCount)
    (hempty : st.matched.isEmpty = true) :
    streamParseStep targets src none "in_network" v st =
      some { st with stages := st.stages ++ ["Skipping: in_network (no matching providers)"] } := by
  simp [streamParseStep, hseen, hrefs, hempty]

/-- Step evaluation: first-pass `in_network` after an empty
`provider_references` array is processed normally. -/
theorem streamParseStep_inNetwork_process_zeroRefs (targets : List Int) (src : String)
    (elems : List Json) (st : ParseState)
    (hseen : st.seenProviderRefs = true) (hrefs : st.refsCount = 0) :
    streamParseStep targets src none "in_network" (Json.arr elems) st =
      some { st with
        codesScanned := st.codesScanned + elems.length
        results := st.results ++ elems.flatMap (processInNetworkElement targets st.matched src)
        stages := st.stages ++ ["Streaming: in_network"] } := by
  simp [streamParseStep, hseen, hrefs]

/-- C6: on a first pass in which `provider_references` appears before
`in_network`, scanned at least one element, and produced an empty provider
index, the `in_network` value is skipped: zero RateResults are emitted,
`OnCodeScanned` is never invoked, and no second pass is requested. -/
theorem c6_empty_index_skips_in_network (targets : List Int) (src : String)
    (o1 o2 o3 : List (String × Json)) (refsElems : List Json) (inv : Json)
    (out : StreamOut)
    (h1 : ∀ kv ∈ o1, relevantKey kv.1 = false)
    (h2 : ∀ kv ∈ o2, relevantKey kv.1 = false)
    (h3 : ∀ kv ∈ o3, relevantKey kv.1 = false)
    (hnonempty : refsElems ≠ [])
    (hempty : (streamProviderReferences targets MatchedProviders.empty refsElems).isEmpty = true)
    (h : streamParse targets src none
      (o1 ++ ("provider_references", Json.arr refsElems) ::
        (o2 ++ ("in_network", inv) :: o3)) = some out) :
    out.results = [] ∧ out.codesScanned = 0 ∧ out.needSecondPass = false := by
  simp only [streamParse, Option.map_eq_some'] at h
  rcases h with ⟨st, hloop, hf⟩
  rw [streamParseLoop_append targets src none o1 _ _,
    streamParseLoop_irrelevant_block targets src none o1 _ h1, Option.some_bind] at hloop
  rw [streamParseLoop, streamParseStep_refs_arr, Option.some_bind] at hloop
  rw [streamParseLoop_append targets src none o2 _ _,
    streamParseLoop_irrelevant_block targets src none o2 _ h2, Option.some_bind] at hloop
  rw [streamParseLoop, streamParseStep_inNetwork_skip_noMatch targets src inv _
    rfl (by simp only [initState, Nat.zero_add]; exact List.length_pos.mpr hnonempty)
    (by simpa [initState] using hempty), Option.some_bind] at hloop
  rw [streamParseLoop_irrelevant_block targets src none o3 _ h3] at hloop
  simp only [Option.some.injEq] at hloop
  subst hloop
  subst hf
  simp [initState]

/-- C7: an empty `provider_references` array seen before `in_network` does
not suppress in_network processing: every element is scanned
(`OnCodeScanned` fires once per element) and processed against the empty
index, so inline provider_groups with target NPIs still yield results. -/
theorem c7_empty_refs_still_processes (targets : List Int) (src : String)
    (o1 o2 o3 : List (String × Json)) (elems : List Json) (out : StreamOut)
    (h1 : ∀ kv ∈ o1, relevantKey kv.1 = false)
    (h2 : ∀ kv ∈ o2, relevantKey kv.1 = false)
    (h3 : ∀ kv ∈ o3, relevantKey kv.1 = false)
    (h : streamParse targets src none
      (o1 ++ ("provider_references", Json.arr []) ::
        (o2 ++ ("in_network", Json.arr elems) :: o3)) = some out) :
    out.results = elems.flatMap
        (processInNetworkElement targets MatchedProviders.empty src) ∧
      out.codesScanned = elems.length ∧ out.needSecondPass = false := by
  simp only [streamParse, Option.map_eq_some'] at h
  rcases h with ⟨st, hloop, hf⟩
  rw [streamParseLoop_append targets src none o1 _ _,
    streamParseLoop_irrelevant_block targets src none o1 _ h1, Option.some_bind] at hloop
  rw [streamParseLoop, streamParseStep_refs_arr, Option.some_bind] at hloop
  rw [streamParseLoop_append targets src none o2 _ _,
    streamParseLoop_irrelevant_block targets src none o2 _ h2, Option.some_bind] at hloop
  rw [streamParseLoop, streamParseStep_inNetwork_process_zeroRefs targets src elems _
    rfl (by simp [initState]), Option.some_bind] at hloop
  rw [streamParseLoop_irrelevant_block targets src none o3 _ h3] at hloop
  simp only [Option.some.injEq] at hloop
  subst hloop
  subst hf
  simp [initState, streamProviderReferences]

/-- Witness for C6: one non-matching reference element, in_network skipped
with zero results and zero `OnCodeScanned` calls. -/
theorem c6_witness :
    streamParse exTargets "t" none exDocNoMatch = some exOutNoMatch ∧
      exOutNoMatch.results = [] ∧ exOutNoMatch.codesScanned = 0 ∧
      exOutNoMatch.needSecondPass = false :=
  ⟨rfl, c6_empty_index_skips_in_network exTargets "t" [] [] [] [exRefB]
    (Json.arr [exItemRef]) exOutNoMatch (by simp) (by simp) (by simp)
    (by simp) rfl rfl⟩

/-- Witness for C7: the empty refs array still lets the inline element
produce its result. -/
theorem c7_witness :
    streamParse exTargets "t" none exDocInline = some exOutInline ∧
      exOutInline.results =
        [exItemInline].flatMap
          (processInNetworkElement exTargets MatchedProviders.empty "t") ∧
      exOutInline.results ≠ [] :=
  ⟨rfl,
   (c7_empty_refs_still_processes exTargets "t" [] [] [] [exItemInline] exOutInline
     (by simp) (by simp) (by simp) rfl).1,
   by simp [exOutInline]⟩

/-- C8: unknown top-level keys are harmless: `skipValue` consumes any
complete JSON value without error (returning exactly the rest of the
stream), and the parse outcome on a document depends only on its
`provider_references` and `in_network` fields, so inserting or removing
unknown keys anywhere leaves the emitted results (and all other
observables) unchanged. -/
theorem c8_unknown_keys_ignored (targets : List Int) (src : String)
    (prebuilt : Option MatchedProviders) :
    (∀ (v : Json) (rest : List JToken) (fuel : Nat),
      (Json.toTokens v).length ≤ fuel →
      skipValue fuel (Json.toTokens v ++ rest) = some rest) ∧
    (∀ docA docB : List (String × Json),
      docA.filter (fun kv => relevantKey kv.1) =
        docB.filter (fun kv => relevantKey kv.1) →
      streamParse targets src prebuilt docA = streamParse targets src prebuilt docB) := by
  constructor
  · exact fun v rest fuel h => skipValue_toTokens v rest fuel h
  · intro docA docB hfil
    simp only [streamParse]
    rw [streamParseLoop_filter targets src prebuilt docA _,
      streamParseLoop_filter targets src prebuilt docB _, hfil]

/-- Witness for C8: `skipValue` consumes the fixture object exactly, and
the document with the extra unknown keys parses to the same output as the
basic document. -/
theorem c8_witness :
    skipValue 9 (Json.toTokens exMetaJson ++ [JToken.rbrace]) = some [JToken.rbrace] ∧
      streamParse exTargets "t" none exDocExtra = streamParse exTargets "t" none exDocBasic :=
  ⟨(c8_unknown_keys_ignored exTargets "t" none).1 exMetaJson [JToken.rbrace] 9 (by decide),
   (c8_unknown_keys_ignored exTargets "t" none).2 exDocExtra exDocBasic rfl⟩

/-- Counterexample to C9 as stated: when every attempt yields HTTP 500,
the delays actually slept are 2s then 4s — not the claimed 1s, 2s, 4s
schedule; no 1-second backoff ever occurs. -/
theorem c9_counterexample :
    (downloadHTTP (fun _ => HttpOutcome.response 500)).delays = [2, 4] ∧
      (downloadHTTP (fun _ => HttpOutcome.response 500)).delays ≠ [1, 2] ∧
      (downloadHTTP (fun _ => HttpOutcome.response 500)).delays ≠ [1, 2, 4] ∧
      1 ∉ (downloadHTTP (fun _ => HttpOutcome.response 500)).delays :=
  ⟨rfl, by decide, by decide, by decide⟩

/-- C9 (amended): `DownloadHTTP` makes at most 3 attempts; the backoff
delays slept before the second and third attempts are 2s and 4s
(`2^attempt` seconds, never 1s); a 200 response returns immediately; any
4xx response returns the error immediately with no retry and no further
delay; transport errors and any other non-200 status (5xx in particular)
are retried until the three attempts are exhausted. -/
theorem c9_retry_policy (respond : Nat → HttpOutcome) :
    (downloadHTTP respond).attemptsMade ≤ 3 ∧
    (downloadHTTP respond).delays =
      List.take ((downloadHTTP respond).attemptsMade - 1) [2, 4] ∧
    (∀ s, respond 0 = HttpOutcome.response s → 400 ≤ s → s < 500 →
      downloadHTTP respond = ⟨1, [], DownloadStatus.clientError s⟩) ∧
    (respond 0 = HttpOutcome.response 200 →
      downloadHTTP respond = ⟨1, [], DownloadStatus.success 0⟩) ∧
    (retryable (respond 0) → retryable (respond 1) → retryable (respond 2) →
      downloadHTTP respond = ⟨3, [2, 4], DownloadStatus.failedAfterRetries⟩) := by
  refine ⟨?_, ?_, ?_, ?_, ?_⟩
  · cases h0 : respond 0 <;> cases h1 : respond 1 <;> cases h2 : respond 2 <;>
      simp [downloadHTTP, downloadGo, h0, h1, h2] <;>
      split_ifs <;> simp_all
  · cases h0 : respond 0 <;> cases h1 : respond 1 <;> cases h2 : respond 2 <;>
      simp [downloadHTTP, downloadGo, h0, h1, h2] <;>
      split_ifs <;> simp_all
  · intro s h0 hlo hhi
    have hne : ¬s = 200 := by omega
    simp [downloadHTTP, downloadGo, h0, hne, hlo, hhi]
  · intro h0
    simp [downloadHTTP, downloadGo, h0]
  · intro hr0 hr1 hr2
    cases h0 : respond 0 with
    | transportError =>
      cases h1 : respond 1 with
      | transportError =>
        cases h2 : respond 2 with
        | transportError => simp [downloadHTTP, downloadGo, h0, h1, h2]
        | response s2 =>
          rw [h2] at hr2
          simp only [retryable] at hr2
          simp [downloadHTTP, downloadGo, h0, h1, h2, hr2.1, hr2.2]
      | response s1 =>
        rw [h1] at hr1
        simp only [retryable] at hr1
        cases h2 : respond 2 with
        | transportError => simp [downloadHTTP, downloadGo, h0, h1, h2, hr1.1, hr1.2]
        | response s2 =>
          rw [h2] at hr2
          simp only [retryable] at hr2
          simp [downloadHTTP, downloadGo, h0, h1, h2, hr1.1, hr1.2, hr2.1, hr2.2]
    | response s0 =>
      rw [h0] at hr0
      simp only [retryable] at hr0
      cases h1 : respond 1 with
      | transportError =>
        cases h2 : respond 2 with
        | transportError => simp [downloadHTTP, downloadGo, h0, h1, h2, hr0.1, hr0.2]
        | response s2 =>
          rw [h2] at hr2
          simp only [retryable] at hr2
          simp [downloadHTTP, downloadGo, h0, h1, h2, hr0.1, hr0.2, hr2.1, hr2.2]
      | response s1 =>
        rw [h1] at hr1
        simp only [retryable] at hr1
        cases h2 : respond 2 with
        | transportError =>
          simp [downloadHTTP, downloadGo, h0, h1, h2, hr0.1, hr0.2, hr1.1, hr1.2]
        | response s2 =>
          rw [h2] at hr2
          simp only [retryable] at hr2
          simp [downloadHTTP, downloadGo, h0, h1, h2, hr0.1, hr0.2, hr1.1, hr1.2,
            hr2.1, hr2.2]

/-- Witness for C9 (amended): the all-500 responder makes exactly 3
attempts with delays 2s then 4s, and a 404 on the first attempt returns
immediately. -/
theorem c9_witness :
    downloadHTTP (fun _ => HttpOutcome.response 500) =
      ⟨3, [2, 4], DownloadStatus.failedAfterRetries⟩ ∧
      downloadHTTP (fun _ => HttpOutcome.response 404) =
        ⟨1, [], DownloadStatus.clientError 404⟩ :=
  ⟨(c9_retry_policy (fun _ => HttpOutcome.response 500)).2.2.2.2
      (by simp [retryable]) (by simp [retryable]) (by simp [retryable]),
   (c9_retry_policy (fun _ => HttpOutcome.response 404)).2.2.1 404 rfl
      (by decide) (by decide)⟩

/-- The pool returns one slot per URL. -/
theorem poolRun_length (cancelled : Nat → Bool)
    (pipe : Nat → String → List RateResult × Option String) :
    ∀ (i : Nat) (urls : List String), (poolRun cancelled pipe i urls).length = urls.length
  | _, [] => rfl
  | i, u :: rest => by
    simp [poolRun, poolRun_length cancelled pipe (i + 1) rest]

/-- Every slot carries its own URL, in input order. -/
theorem poolRun_map_url (cancelled : Nat → Bool)
    (pipe : Nat → String → List RateResult × Option String) :
    ∀ (i : Nat) (urls : List String), (poolRun cancelled pipe i urls).map (·.url) = urls
  | _, [] => rfl
  | i, u :: rest => by
    by_cases hc : cancelled i <;>
      simp [poolRun, hc, poolRun_map_url cancelled pipe (i + 1) rest]

/-- Slot `i` depends only on slot `i`'s own cancellation observation and
pipeline behaviour: other URLs' outcomes cannot change it. -/
theorem poolRun_slot_independent (cancelled cancelled2 : Nat → Bool)
    (pipe pipe2 : Nat → String → List RateResult × Option String) :
    ∀ (start : Nat) (urls : List String) (i : Nat),
    cancelled (start + i) = cancelled2 (start + i) →
    pipe (start + i) = pipe2 (start + i) →
    (poolRun cancelled pipe start urls)[i]? = (poolRun cancelled2 pipe2 start urls)[i]?
  | _, [], _, _, _ => rfl
  | start, u :: rest, 0, hc, hp => by
    simp only [Nat.add_zero] at hc hp
    simp [poolRun, hc, hp]
  | start, u :: rest, i + 1, hc, hp => by
    have := poolRun_slot_independent cancelled cancelled2 pipe pipe2 (start + 1) rest i
      (by rw [show start + 1 + i = start + (i + 1) by omega]; exact hc)
      (by rw [show start + 1 + i = start + (i + 1) by omega]; exact hp)
    simp [poolRun, this]

/-- C10: `Pool.Run` returns a result slice with exactly one entry per
input URL, in input order (`results[i].URL = urls[i]`): cancelled and
failed URLs still fill their own slot, and one URL's failure or
cancellation never affects any other URL's slot. -/
theorem c10_pool_run_slots (cancelled : Nat → Bool)
    (pipe : Nat → String → List RateResult × Option String) (urls : List String) :
    (poolRun cancelled pipe 0 urls).length = urls.length ∧
    (poolRun cancelled pipe 0 urls).map (·.url) = urls ∧
    (∀ (cancelled2 : Nat → Bool)
       (pipe2 : Nat → String → List RateResult × Option String) (i : Nat),
       cancelled i = cancelled2 i → pipe i = pipe2 i →
       (poolRun cancelled pipe 0 urls)[i]? = (poolRun cancelled2 pipe2 0 urls)[i]?) :=
  ⟨poolRun_length cancelled pipe 0 urls, poolRun_map_url cancelled pipe 0 urls,
   fun cancelled2 pipe2 i hc hp =>
     poolRun_slot_independent cancelled cancelled2 pipe pipe2 0 urls i
       (by simpa using hc) (by simpa using hp)⟩

/-- Witness for C10: two URLs, the first failing; the slot URLs match the
inputs and changing slot 0's outcome leaves slot 1 unchanged. -/
theorem c10_witness :
    (poolRun (fun _ => false) exPipe 0 ["a", "b"]).map (·.url) = ["a", "b"] ∧
      (poolRun (fun _ => false) exPipe 0 ["a", "b"])[1]? =
        (poolRun (fun _ => false) exPipe2 0 ["a", "b"])[1]? :=
  ⟨(c10_pool_run_slots (fun _ => false) exPipe ["a", "b"]).2.1,
   (c10_pool_run_slots (fun _ => false) exPipe ["a", "b"]).2.2 (fun _ => false) exPipe2 1
     rfl rfl⟩
